import Mathlib

/-!
# Verification of the hybrid retrieval engine of `langchain-ChatGLM`

Shallow embedding of the retrieval core:

* `chains/local_doc_qa.py` — `seperate_list`, the patched
  `similarity_search_with_score_by_vector` (dense search with neighbour
  stitching), `LocalDocQA.search` (whoosh lexical search);
* `api.py` — the `chat` fusion pipeline, `list_docs`/`delete_docs`
  knowledge-base lifecycle, the `search` endpoint;
* `hardcoding_scripts.py` — `match_hardcoding_scripts` coverage scoring.

Python floats carrying scores are modelled as rationals (`ℚ`); text is
modelled as `String` with `String.length` for Python `len`; fallible
operations (`KeyError`, `IndexError`, `NameError`) return `Option`.
-/

namespace LangchainChatGLM

/-- A document held in the FAISS docstore.  The source method reads
`doc.page_content` and `doc.metadata["source"]`. -/
structure Doc where
  page_content : String
  source : String
deriving DecidableEq, Repr

/-! ## `seperate_list` (src/chains/local_doc_qa.py lines 59-69)

```python
def seperate_list(ls: List[int]) -> List[List[int]]:
    lists = []
    ls1 = [ls[0]]
    for i in range(1, len(ls)):
        if ls[i - 1] + 1 == ls[i]:
            ls1.append(ls[i])
        else:
            lists.append(ls1)
            ls1 = [ls[i]]
    lists.append(ls1)
    return lists
```

`ls[0]` raises `IndexError` on an empty list, hence the `Option` result.
The loop compares `ls[i-1]` (the previously seen element, held in `prev`)
with `ls[i]`. -/

def sepLoop (lists : List (List ℤ)) (ls1 : List ℤ) (prev : ℤ) :
    List ℤ → List (List ℤ)
  | [] => lists ++ [ls1]
  | x :: rest =>
    if prev + 1 = x then
      sepLoop lists (ls1 ++ [x]) x rest
    else
      sepLoop (lists ++ [ls1]) [x] x rest

def seperate_list : List ℤ → Option (List (List ℤ))
  | [] => none
  | x :: rest => some (sepLoop [] [x] x rest)

/-- Two runs are separated by a gap: the last element of the first plus one is
still strictly below the first element of the second. -/
def gapOk (r1 r2 : List ℤ) : Prop :=
  ∀ a ∈ r1.getLast?, ∀ b ∈ r2.head?, a + 1 < b

/-! ## Patched dense search (src/chains/local_doc_qa.py lines 72-117)

```python
def similarity_search_with_score_by_vector(self, embedding, k=4):
    scores, indices = self.index.search(np.array([embedding], dtype=np.float32), k)
    docs = []
    id_set = set()
    for j, i in enumerate(indices[0]):
        if i == -1:
            continue
        _id = self.index_to_docstore_id[i]
        doc = self.docstore.search(_id)
        id_set.add(i)
        docs_len = len(doc.page_content)
        for k in range(1, max(i, len(docs) - i)):
            break_flag = False
            for l in [i + k, i - k]:
                if 0 <= l < len(self.index_to_docstore_id):
                    _id0 = self.index_to_docstore_id[l]
                    doc0 = self.docstore.search(_id0)
                    if docs_len + len(doc0.page_content) > self.chunk_size:
                        break_flag=True
                        break
                    elif doc0.metadata["source"] == doc.metadata["source"]:
                        docs_len += len(doc0.page_content)
                        id_set.add(l)
            if break_flag:
                break
    id_list = sorted(list(id_set))
    id_lists = seperate_list(id_list)
    for id_seq in id_lists:
        for id in id_seq:
            if id == id_seq[0]:
                _id = self.index_to_docstore_id[id]
                doc = self.docstore.search(_id)
            else:
                _id0 = self.index_to_docstore_id[id]
                doc0 = self.docstore.search(_id0)
                doc.page_content += doc0.page_content
        docs.append((doc, scores[0][j]))
    return docs
```

The docstore (`index_to_docstore_id` composed with `docstore.search`) is
modelled as a `List Doc`; the FAISS answer as the position list `hits`
(`indices[0]`, sentinel `-1` for a miss) and distance list `scores`
(`scores[0]`).  Note that in `range(1, max(i, len(docs) - i))` the variable
`docs` is still the empty output accumulator, so `len(docs)` is `0`; and that
after the first loop `j` holds the final enumeration index
`len(indices[0]) - 1` whether or not that hit was a sentinel. -/

/-- `id_set.add(x)` on a Python `set` modelled as a duplicate-free list. -/
def pyInsert (s : List ℤ) (x : ℤ) : List ℤ :=
  if x ∈ s then s else s ++ [x]

/-- One probe of neighbour position `l` for a seed whose source is `seedSrc`:
the body of `for l in [i + k, i - k]`.  The state is `(id_set, docs_len)`;
the returned `Bool` is `break_flag`. -/
def neighborStep (ds : List Doc) (chunk_size : ℕ) (seedSrc : String)
    (st : List ℤ × ℕ) (l : ℤ) : (List ℤ × ℕ) × Bool :=
  if 0 ≤ l ∧ l < (ds.length : ℤ) then
    match ds.get? l.toNat with
    | some doc0 =>
      if chunk_size < st.2 + doc0.page_content.length then
        (st, true)
      else if doc0.source = seedSrc then
        ((pyInsert st.1 l, st.2 + doc0.page_content.length), false)
      else
        (st, false)
    | none => (st, false)
  else
    (st, false)

/-- The inner `for l in [i + k, i - k]` loop: `i - k` is only probed when the
probe of `i + k` did not set `break_flag`. -/
def innerPair (ds : List Doc) (chunk_size : ℕ) (seedSrc : String)
    (st : List ℤ × ℕ) (i k : ℤ) : (List ℤ × ℕ) × Bool :=
  let r1 := neighborStep ds chunk_size seedSrc st (i + k)
  if r1.2 then r1 else neighborStep ds chunk_size seedSrc r1.1 (i - k)

/-- The values taken by `k` in `range(1, max(i, len(docs) - i))`.  At this
point of the source, `docs` is still the empty output accumulator, hence the
`0 - i` operand. -/
def kRange (i : ℤ) : List ℤ :=
  (List.range' 1 ((max i (0 - i)).toNat - 1)).map Int.ofNat

/-- The outer `for k in range(...)` loop, stopping as soon as `break_flag`
was set. -/
def outerLoop (ds : List Doc) (chunk_size : ℕ) (seedSrc : String) (i : ℤ) :
    (List ℤ × ℕ) → List ℤ → List ℤ × ℕ
  | st, [] => st
  | st, k :: ks =>
    let r := innerPair ds chunk_size seedSrc st i k
    if r.2 then r.1 else outerLoop ds chunk_size seedSrc i r.1 ks

/-- Neighbourhood expansion for the seed hit at position `i` holding document
`doc`, starting from the shared `id_set` (to which the caller has already
added `i`) and `docs_len = len(doc.page_content)`. -/
def expandSeedCore (ds : List Doc) (chunk_size : ℕ) (i : ℤ) (doc : Doc)
    (idSet : List ℤ) : List ℤ × ℕ :=
  outerLoop ds chunk_size doc.source i (idSet, doc.page_content.length) (kRange i)

/-- The first loop over `enumerate(indices[0])`: sentinels are skipped, every
other hit is added to `id_set` and expanded.  A position that the docstore
cannot resolve raises `KeyError`, modelled as `none`. -/
def collectIds (ds : List Doc) (chunk_size : ℕ) :
    List ℤ → List ℤ → Option (List ℤ)
  | idSet, [] => some idSet
  | idSet, i :: hits =>
    if i = -1 then collectIds ds chunk_size idSet hits
    else if i < 0 then none
    else
      match ds.get? i.toNat with
      | none => none
      | some doc =>
        collectIds ds chunk_size
          (expandSeedCore ds chunk_size i doc (pyInsert idSet i)).1 hits

/-- `sorted(list(id_set))` followed by `seperate_list`. -/
def denseIdRuns (ds : List Doc) (chunk_size : ℕ) (hits : List ℤ) :
    Option (List (List ℤ)) := do
  let idSet ← collectIds ds chunk_size [] hits
  seperate_list (List.insertionSort (fun a b => a ≤ b) idSet)

/-- Materialisation of one run: the chunks' contents concatenated in position
order (`doc.page_content += doc0.page_content`). -/
def mergeRun (ds : List Doc) (run : List ℤ) : Option String := do
  let chunks ← run.mapM (fun id => if id < 0 then none else ds.get? id.toNat)
  pure (chunks.foldl (fun acc c => acc ++ c.page_content) "")

/-- The whole patched `similarity_search_with_score_by_vector`, returning the
merged passages each paired with the score `scores[0][j]` — `j` being the
last enumeration index of the first loop, `len(indices[0]) - 1`. -/
def similarity_search_with_score_by_vector (ds : List Doc) (chunk_size : ℕ)
    (hits : List ℤ) (scores : List ℚ) : Option (List (String × ℚ)) := do
  let idRuns ← denseIdRuns ds chunk_size hits
  let score ← scores.get? (hits.length - 1)
  let passages ← idRuns.mapM (mergeRun ds)
  pure (passages.map (fun s => (s, score)))

/-! ## Lexical search (whoosh model)

`LocalDocQA.search` (src/chains/local_doc_qa.py lines 256-268) parses the
query with `QueryParser("content", ix.schema)` — whoosh's *default* grouping,
`AndGroup` — and exposes no grouping parameter;
`match_hardcoding_scripts` (src/hardcoding_scripts.py lines 69-97) parses
with `group=OrGroup`.  The analyzer (jieba's `ChineseAnalyzer`) and
`pycorrector.correct` are external collaborators: queries and stored
documents enter the model already tokenized.  Whoosh's BM25 relevance
ordering is abstracted to stored order; `hit.matched_terms()` is the set of
query tokens present in the document's indexed content. -/

inductive GroupMode
  | AndGroup
  | OrGroup
deriving DecidableEq, Repr

/-- The result of `QueryParser(...).parse(query)`: a whoosh `Query` object
holding the grouping mode and the query's tokens.  It is an object, never a
Python `list`. -/
structure ParsedQuery where
  mode : GroupMode
  tokens : List String
deriving DecidableEq, Repr

/-- `isinstance(query, list)` for a parsed whoosh query: always `False`. -/
def ParsedQuery.isPythonList (_q : ParsedQuery) : Bool := false

/-- Whether a stored document (given by its analyzer token list) satisfies
the parsed query: AND-grouping requires every term to appear, OR-grouping
any term. -/
def queryMatches (q : ParsedQuery) (docTokens : List String) : Bool :=
  match q.mode with
  | GroupMode.AndGroup => q.tokens.all (fun t => docTokens.contains t)
  | GroupMode.OrGroup => q.tokens.any (fun t => docTokens.contains t)

/-- An entry of the whoosh text index built by `init_text_indexing`
(src/chains/local_doc_qa.py lines 145-162): stored `title`, `path` and
`content`, the content indexed through the analyzer as `tokens`. -/
structure TIEntry where
  title : String
  path : String
  content : String
  tokens : List String
deriving DecidableEq, Repr

/-- `searcher.search(query, limit=top_k, terms=True)`: the matching entries,
at most `limit` of them. -/
def whooshSearch (ix : List TIEntry) (q : ParsedQuery) (limit : ℕ) :
    List TIEntry :=
  (ix.filter (fun e => queryMatches q e.tokens)).take limit

/-- A hit as built by `LocalDocQA.search`: `docname`, content (the
`hit.highlights` markup is produced by whoosh, a collaborator; the stored
content stands in for it) and `matched_terms`. -/
structure Hit where
  docname : String
  content : String
  matched_terms : List String
deriving DecidableEq, Repr

/-- `LocalDocQA.search` (src/chains/local_doc_qa.py lines 256-268).  The
parser is constructed as `QueryParser("content", ix.schema)`: default
AND-grouping, no grouping argument in the method's signature. -/
def LocalDocQA.search (ix : List TIEntry) (queryTokens : List String)
    (top_k : ℕ) : List Hit :=
  let query : ParsedQuery := ⟨GroupMode.AndGroup, queryTokens⟩
  (whooshSearch ix query top_k).map (fun e =>
    { docname := e.title
      content := e.content
      matched_terms := queryTokens.filter (fun t => e.tokens.contains t) })

/-! ## `match_hardcoding_scripts` (src/hardcoding_scripts.py lines 69-97) -/

/-- An entry of the hardcoding-scripts whoosh index (`path`, `uid`, stored
`content`, analyzer `tokens`). -/
structure HCEntry where
  path : String
  uid : String
  content : String
  tokens : List String
deriving DecidableEq, Repr

/-- One hit dict of `match_hardcoding_scripts` (the diagnostic `bm25_score`
is produced by whoosh and omitted). -/
structure HCHit where
  path : String
  uid : String
  content : String
  matched_terms : List String
  score : ℚ
deriving DecidableEq, Repr

def whooshSearchHC (ix : List HCEntry) (q : ParsedQuery) (limit : ℕ) :
    List HCEntry :=
  (ix.filter (fun e => queryMatches q e.tokens)).take limit

/-- The hit list computed by `match_hardcoding_scripts`: OR-grouped parse,
`query_len = len(query) if isinstance(query, list) else 1` — the parsed
query object is never a list, so `query_len` is always `1` —
`score = (len(matched_terms) / query_len) * 100`, then
`filter(score > 80)` and a descending sort. -/
def match_hardcoding_scripts (ix : List HCEntry) (queryTokens : List String) :
    List HCHit :=
  let query : ParsedQuery := ⟨GroupMode.OrGroup, queryTokens⟩
  let query_len : ℚ :=
    if query.isPythonList then (query.tokens.length : ℚ) else 1
  let hits := (whooshSearchHC ix query 5).map (fun e =>
    let matched := queryTokens.filter (fun t => e.tokens.contains t)
    { path := e.path, uid := e.uid, content := e.content,
      matched_terms := matched,
      score := ((matched.length : ℚ) / query_len) * 100 })
  let hits := hits.filter (fun h => 80 < h.score)
  List.insertionSort (fun a b => b.score ≤ a.score) hits

/-! ## Dense scoring (spec-modelled) -/

/-- Modelled from the spec: `LocalDocQA.dense_search` is invoked at
src/api.py line 332 but the method itself is absent from the sources (only
the raw-distance `similarity_search_with_score_by_vector` is present).
Spec §4.2 step 5 prescribes mapping the raw L2 distance `d` of a dense
result to its attached score via `score = 25 * (4 - d)`. -/
def dense_search_score (d : ℚ) : ℚ := 25 * (4 - d)

/-! ## Result fusion in `chat` (src/api.py lines 300-362)

The lexical hits are converted to source-document dicts reading
`item["score"]` and `item["raw_content"]` (lines 318-327); the conversion is
kept abstract because the `LocalDocQA.search` present in the sources stores
neither field.  Dense results enter as a ready list of the same records. -/

/-- A `source_documents` record as built by `chat`. -/
structure SourceDoc where
  content : String
  raw_content : String
  score : ℚ
  filename : String
  category : String
deriving DecidableEq, Repr

/-- In-place update of the list element at index `n`
(`source_documents[index]["score"] = ...`). -/
def updateAt {α : Type} : List α → ℕ → (α → α) → List α
  | [], _, _ => []
  | x :: xs, 0, f => f x :: xs
  | x :: xs, n + 1, f => x :: updateAt xs n f

/-- One iteration of `for item in dense_results` (src/api.py lines 333-352).
The state is `(source_documents, dense_source_documents)`; a dense item whose
`raw_content` occurs among the current `source_documents` averages its score
into the *first* record with that `raw_content` (`list.index`), otherwise it
is appended to `dense_source_documents`. -/
def fuseStep (st : List SourceDoc × List SourceDoc) (item : SourceDoc) :
    List SourceDoc × List SourceDoc :=
  let raws := st.1.map (fun d => d.raw_content)
  if item.raw_content ∈ raws then
    let index := raws.indexOf item.raw_content
    (updateAt st.1 index
      (fun d => { d with score := (1/2) * (item.score + d.score) }), st.2)
  else
    (st.1, st.2 ++ [item])

/-- The fusion loop followed by `source_documents += dense_source_documents`
(src/api.py lines 333-354). -/
def chatFuse (lexical dense : List SourceDoc) : List SourceDoc :=
  let st := dense.foldl fuseStep (lexical, [])
  st.1 ++ st.2

/-- `sorted(..., key=score, reverse=True)`, then `filter(score > 50)`, then
`[:VECTOR_SEARCH_TOP_K]` (src/api.py lines 355-357). -/
def chatPost (top_k : ℕ) (docs : List SourceDoc) : List SourceDoc :=
  ((List.insertionSort (fun a b => b.score ≤ a.score) docs).filter
    (fun d => 50 < d.score)).take top_k

/-- `VECTOR_SEARCH_TOP_K` (src/api.py line 25). -/
def VECTOR_SEARCH_TOP_K : ℕ := 6

/-- Characterisation device for the fusion theorem: the first dense item
matching a lexical record's `raw_content` (if any) averages into its
score. -/
def fuseUpd (dense : List SourceDoc) (l : SourceDoc) : SourceDoc :=
  match dense.find? (fun d => d.raw_content == l.raw_content) with
  | some d => { l with score := (1/2) * (d.score + l.score) }
  | none => l

/-- The conversion loop of `chat` (src/api.py lines 318-327): every hit dict
is read at the keys `"content"`, `"raw_content"`, `"score"`, `"docname"`;
the hit dicts built by `LocalDocQA.search` carry only `docname`, `content`
and `matched_terms`, so `item["raw_content"]` raises `KeyError` on the very
first hit.  Only the empty hit list gets through, yielding an empty
`source_documents`. -/
def hitsToSourceDocuments : List Hit → Option (List SourceDoc)
  | [] => some []
  | _ :: _ => none

/-- The `chat` endpoint retrieval pipeline (src/api.py lines 300-362):
lexical retrieval with `top_k = VECTOR_SEARCH_TOP_K * 2`, conversion of the
hits to `source_documents` (which fails with `KeyError` on any non-empty hit
list, see `hitsToSourceDocuments`), then — only if `len(question) >= 5` —
fusion with the dense results, then sort/threshold/truncate. -/
def chat (ix : List TIEntry) (queryTokens : List String) (question : String)
    (denseResults : List SourceDoc) : Option (List SourceDoc) :=
  match hitsToSourceDocuments
      (LocalDocQA.search ix queryTokens (VECTOR_SEARCH_TOP_K * 2)) with
  | none => none
  | some source_documents =>
    some (chatPost VECTOR_SEARCH_TOP_K
      (if 5 ≤ question.length then chatFuse source_documents denseResults
       else source_documents))

/-! ## Knowledge-base lifecycle (src/api.py lines 225-282 and 414-428) -/

/-- The on-disk state of one knowledge base folder: the uploaded document
names and whether the two index subdirectories exist; `none` models an
absent folder. -/
structure KBFolder where
  docs : List String
  has_vector_store : Bool
  has_text_index : Bool
deriving DecidableEq, Repr

/-- What `list_docs` (src/api.py lines 225-250) hands back when called with
a knowledge base id: for a missing folder, the plain dict
`{"code": 1, "msg": ...}` — subscriptable; for an existing folder, a
pydantic `ListDocsResponse` (whose `BaseResponse` field `code` is `200`),
which CPython cannot subscript. -/
inductive ListDocsAnswer
  | errorDict (code : ℕ)
  | response (data : List String)
deriving DecidableEq, Repr

/-- `list_docs` for a given knowledge base (src/api.py lines 225-239). -/
def list_docs : Option KBFolder → ListDocsAnswer
  | none => ListDocsAnswer.errorDict 1
  | some kb => ListDocsAnswer.response kb.docs

/-- `remain_docs["code"]`: succeeds on the plain dict, but raises
`TypeError` ("`ListDocsResponse` object is not subscriptable") on the
pydantic model. -/
def ListDocsAnswer.getItemCode : ListDocsAnswer → Option ℕ
  | ListDocsAnswer.errorDict c => some c
  | ListDocsAnswer.response _ => none

/-- `remain_docs["data"]`: the error dict has no `"data"` key (`KeyError`)
and the pydantic model is not subscriptable (`TypeError`) — either way an
uncaught exception. -/
def ListDocsAnswer.getItemData : ListDocsAnswer → Option (List String)
  | ListDocsAnswer.errorDict _ => none
  | ListDocsAnswer.response _ => none

/-- `init_knowledge_vector_store` + `init_text_indexing`: both indexes are
rebuilt from the remaining files. -/
def rebuild_indexes (kb : KBFolder) : KBFolder :=
  { kb with has_vector_store := true, has_text_index := true }

/-- How one `delete_docs` request ends: an error answer (`code = 1` dict),
an uncaught `TypeError`/`KeyError` escaping the handler, or the normal
`BaseResponse`. -/
inductive DeleteOutcome
  | kbNotFound
  | docNotFound
  | typeError
  | ok
deriving DecidableEq, Repr

/-- `delete_docs` with a `doc_name` (src/api.py lines 253-282): remove the
file (`os.remove`), call `list_docs`, then evaluate
`remain_docs["code"] != 0 or len(remain_docs["data"]) == 0` left to right
(short-circuit) to choose between `shutil.rmtree` and a rebuild of both
indexes.  The result pairs the request's outcome with the folder state
left behind. -/
def delete_docs (fs : Option KBFolder) (doc_name : String) :
    DeleteOutcome × Option KBFolder :=
  match fs with
  | none => (DeleteOutcome.kbNotFound, none)
  | some kb =>
    if doc_name ∈ kb.docs then
      let kb1 : KBFolder := { kb with docs := kb.docs.erase doc_name }
      match (list_docs (some kb1)).getItemCode with
      | none => (DeleteOutcome.typeError, some kb1)
      | some c =>
        if c ≠ 0 then
          (DeleteOutcome.ok, none)
        else
          match (list_docs (some kb1)).getItemData with
          | none => (DeleteOutcome.typeError, some kb1)
          | some data =>
            if data.length = 0 then (DeleteOutcome.ok, none)
            else (DeleteOutcome.ok, some (rebuild_indexes kb1))
    else (DeleteOutcome.docNotFound, some kb)

inductive SearchOutcome
  | indexNotFound
  | ok
deriving DecidableEq, Repr

/-- The `search` endpoint's guard (src/api.py lines 414-428): a missing
`text_index` path raises the 404 "Knowledge base not found". -/
def api_search (fs : Option KBFolder) : SearchOutcome :=
  match fs with
  | none => SearchOutcome.indexNotFound
  | some kb =>
    if kb.has_text_index then SearchOutcome.ok else SearchOutcome.indexNotFound

example : seperate_list [3, 4, 5, 9, 10, 14] = some [[3, 4, 5], [9, 10], [14]] := by
  decide

theorem sepLoop_join (rest : List ℤ) :
    ∀ (lists : List (List ℤ)) (ls1 : List ℤ) (prev : ℤ),
      (sepLoop lists ls1 prev rest).flatten = lists.flatten ++ ls1 ++ rest := by
  induction rest with
  | nil => intro lists ls1 prev; simp [sepLoop]
  | cons x rest ih =>
    intro lists ls1 prev
    by_cases h : prev + 1 = x
    · simp only [sepLoop, if_pos h, ih]
      simp
    · simp only [sepLoop, if_neg h, ih]
      simp

theorem sepLoop_runs (rest : List ℤ) :
    ∀ (lists : List (List ℤ)) (ls1 : List ℤ) (prev : ℤ),
      ls1 ≠ [] →
      List.Chain' (fun a b => a + 1 = b) ls1 →
      ls1.getLast? = some prev →
      (∀ r ∈ lists, r ≠ [] ∧ List.Chain' (fun a b => a + 1 = b) r) →
      List.Chain' gapOk (lists ++ [ls1]) →
      List.Chain' (· < ·) (prev :: rest) →
      (∀ r ∈ sepLoop lists ls1 prev rest,
        r ≠ [] ∧ List.Chain' (fun a b => a + 1 = b) r) ∧
      List.Chain' gapOk (sepLoop lists ls1 prev rest) := by
  induction rest with
  | nil =>
    intro lists ls1 prev h1 h2 _h3 h4 h5 _h6
    constructor
    · intro r hr
      rcases List.mem_append.mp hr with hr | hr
      · exact h4 r hr
      · simp only [List.mem_singleton] at hr
        exact hr ▸ ⟨h1, h2⟩
    · exact h5
  | cons x rest ih =>
    intro lists ls1 prev h1 h2 h3 h4 h5 h6
    have hlt : prev < x := (List.chain'_cons.mp h6).1
    have h6' : List.Chain' (· < ·) (x :: rest) := (List.chain'_cons.mp h6).2
    by_cases h : prev + 1 = x
    · simp only [sepLoop, if_pos h]
      apply ih lists (ls1 ++ [x]) x
      · simp
      · rw [List.chain'_append]
        refine ⟨h2, List.chain'_singleton x, ?_⟩
        intro a ha b hb
        rw [h3] at ha
        simp only [Option.mem_def, Option.some_inj] at ha
        simp only [List.head?_cons, Option.mem_def, Option.some_inj] at hb
        rw [← ha, ← hb]
        exact h
      · exact List.getLast?_concat ls1
      · exact h4
      · rw [List.chain'_append] at h5 ⊢
        refine ⟨h5.1, List.chain'_singleton _, ?_⟩
        intro a ha b hb
        simp only [List.head?_cons, Option.mem_def, Option.some_inj] at hb
        have := h5.2.2 a ha ls1 (by simp)
        subst hb
        intro p hp q hq
        apply this p hp
        rcases ls1 with _ | ⟨c, cs⟩
        · exact absurd rfl h1
        · simpa using hq
      · exact h6'
    · simp only [sepLoop, if_neg h]
      apply ih (lists ++ [ls1]) [x] x
      · simp
      · exact List.chain'_singleton x
      · rfl
      · intro r hr
        rcases List.mem_append.mp hr with hr | hr
        · exact h4 r hr
        · simp only [List.mem_singleton] at hr
          exact hr ▸ ⟨h1, h2⟩
      · rw [List.chain'_append]
        refine ⟨h5, List.chain'_singleton _, ?_⟩
        intro a ha b hb
        rw [List.getLast?_concat] at ha
        simp only [Option.mem_def, Option.some_inj] at ha
        simp only [List.head?_cons, Option.mem_def, Option.some_inj] at hb
        subst ha; subst hb
        intro p hp q hq
        rw [h3] at hp
        simp only [Option.mem_def, Option.some_inj] at hp
        simp only [List.head?_cons, Option.mem_def, Option.some_inj] at hq
        subst hp; subst hq
        exact lt_of_le_of_ne (Int.add_one_le_iff.mpr hlt) h
      · exact h6'

/-- **C2** — Run-merging partition correctness: for every non-empty sorted list
of distinct integers, `seperate_list` succeeds and returns maximal runs of
consecutive integers whose concatenation equals the input list, every run being
non-empty, and any two adjacent runs being separated by a genuine gap
(last of the first + 1 < first of the second). -/
theorem seperate_list_partition (ls : List ℤ) (hne : ls ≠ [])
    (hsorted : List.Chain' (· < ·) ls) :
    ∃ runs, seperate_list ls = some runs ∧
      runs.flatten = ls ∧
      (∀ r ∈ runs, r ≠ [] ∧ List.Chain' (fun a b => a + 1 = b) r) ∧
      List.Chain' gapOk runs := by
  rcases ls with _ | ⟨x, rest⟩
  · exact absurd rfl hne
  refine ⟨sepLoop [] [x] x rest, rfl, ?_, ?_⟩
  · rw [sepLoop_join]
    simp
  · exact and_comm.mp <| and_comm.mp <|
      sepLoop_runs rest [] [x] x (by simp) (List.chain'_singleton x) rfl
        (by intro r hr; simp at hr) (by simp [List.chain'_singleton]) hsorted

/-- Witness for C2 at the spec's own example `{3,4,5,9,10,14}`. -/
theorem seperate_list_partition_witness :
    ∃ runs, seperate_list [3, 4, 5, 9, 10, 14] = some runs ∧
      runs.flatten = [3, 4, 5, 9, 10, 14] ∧
      (∀ r ∈ runs, r ≠ [] ∧ List.Chain' (fun a b => a + 1 = b) r) ∧
      List.Chain' gapOk runs :=
  seperate_list_partition [3, 4, 5, 9, 10, 14] (by decide)
    (by norm_num [List.chain'_cons])

theorem mem_pyInsert {s : List ℤ} {x y : ℤ} (h : y ∈ pyInsert s x) :
    y ∈ s ∨ y = x := by
  unfold pyInsert at h
  split at h
  · exact Or.inl h
  · rcases List.mem_append.mp h with h | h
    · exact Or.inl h
    · simp only [List.mem_singleton] at h
      exact Or.inr h

/-- Positions accepted by a neighbour probe: either they were already in the
set, or they are a valid index whose document shares the seed's source. -/
theorem neighborStep_mem (ds : List Doc) (cs : ℕ) (seedSrc : String)
    (st : List ℤ × ℕ) (l : ℤ) {x : ℤ}
    (hx : x ∈ (neighborStep ds cs seedSrc st l).1.1) :
    x ∈ st.1 ∨ (0 ≤ x ∧ ∃ d, ds.get? x.toNat = some d ∧ d.source = seedSrc) := by
  unfold neighborStep at hx
  split at hx
  · rename_i hguard
    split at hx
    · rename_i doc0 heq
      split at hx
      · exact Or.inl hx
      · split at hx
        · rename_i hsrc
          rcases mem_pyInsert hx with h | rfl
          · exact Or.inl h
          · exact Or.inr ⟨hguard.1, doc0, heq, hsrc⟩
        · exact Or.inl hx
    · exact Or.inl hx
  · exact Or.inl hx

theorem innerPair_mem (ds : List Doc) (cs : ℕ) (seedSrc : String)
    (st : List ℤ × ℕ) (i k : ℤ) {x : ℤ}
    (hx : x ∈ (innerPair ds cs seedSrc st i k).1.1) :
    x ∈ st.1 ∨ (0 ≤ x ∧ ∃ d, ds.get? x.toNat = some d ∧ d.source = seedSrc) := by
  simp only [innerPair] at hx
  split at hx
  · exact neighborStep_mem ds cs seedSrc st (i + k) hx
  · rcases neighborStep_mem ds cs seedSrc _ (i - k) hx with h | h
    · exact neighborStep_mem ds cs seedSrc st (i + k) h
    · exact Or.inr h

theorem outerLoop_mem (ds : List Doc) (cs : ℕ) (seedSrc : String) (i : ℤ)
    (ks : List ℤ) : ∀ (st : List ℤ × ℕ) {x : ℤ},
    x ∈ (outerLoop ds cs seedSrc i st ks).1 →
    x ∈ st.1 ∨ (0 ≤ x ∧ ∃ d, ds.get? x.toNat = some d ∧ d.source = seedSrc) := by
  induction ks with
  | nil => intro st x hx; exact Or.inl hx
  | cons k ks ih =>
    intro st x hx
    simp only [outerLoop] at hx
    split at hx
    · exact innerPair_mem ds cs seedSrc st i k hx
    · rcases ih _ hx with h | h
      · exact innerPair_mem ds cs seedSrc st i k h
      · exact Or.inr h

/-- **C1** (amended) — Neighbourhood expansion: every position a seed's
expansion adds to the `id_set` is a valid index whose chunk has the same
source as the seed (positions already in the set are simply kept); a neighbour
with a different source is skipped but does not by itself halt the walk, while
a budget overflow halts the walk for both directions at once.  The walk for
seed `i` ranges over `k ∈ range(1, max(i, len(docs) - i))` where `docs` is
still the empty output list, so a seed at position `0` expands to nothing at
all — in particular its successor at position `1` is never included, whatever
its source and length. -/
theorem expansion_source_and_seed_zero (ds : List Doc) (cs : ℕ) (i : ℤ)
    (doc : Doc) (idSet : List ℤ) :
    (∀ x ∈ (expandSeedCore ds cs i doc idSet).1,
      x ∈ idSet ∨
        (0 ≤ x ∧ ∃ d, ds.get? x.toNat = some d ∧ d.source = doc.source)) ∧
    expandSeedCore ds cs 0 doc idSet = (idSet, doc.page_content.length) := by
  constructor
  · intro x hx
    exact outerLoop_mem ds cs doc.source i (kRange i) _ hx
  · unfold expandSeedCore
    have h0 : kRange 0 = [] := by decide
    rw [h0]
    rfl

/-- Witness for C1 (amended): for a seed at position 2 of a four-chunk single
source docstore, position 3 is added, and it indeed carries the seed's
source. -/
theorem expansion_source_and_seed_zero_witness :
    (3 : ℤ) ∈ (expandSeedCore [⟨"aa","s"⟩, ⟨"bb","s"⟩, ⟨"cc","s"⟩, ⟨"dd","s"⟩]
        100 2 ⟨"cc","s"⟩ [2]).1 ∧
    ((3 : ℤ) ∈ [(2 : ℤ)] ∨
      (0 ≤ (3 : ℤ) ∧ ∃ d, ([⟨"aa","s"⟩, ⟨"bb","s"⟩, ⟨"cc","s"⟩,
        ⟨"dd","s"⟩] : List Doc).get? (3 : ℤ).toNat = some d ∧
        d.source = Doc.source ⟨"cc","s"⟩)) :=
  ⟨by decide,
    (expansion_source_and_seed_zero [⟨"aa","s"⟩, ⟨"bb","s"⟩, ⟨"cc","s"⟩,
      ⟨"dd","s"⟩] 100 2 ⟨"cc","s"⟩ [2]).1 3 (by decide)⟩

/-- Counterexample to C1 as stated: docstore `["aaaaa"@doc1, "bbbbb"@doc1,
"ccccc"@doc2]`, budget 100, one seed hit at position 0.  Position 1 shares the
seed's source and both lengths together are within the budget, yet the
expanded set stays `{0}`: position 1 is not included. -/
theorem expansion_seed_zero_counterexample :
    denseIdRuns [⟨"aaaaa","doc1"⟩, ⟨"bbbbb","doc1"⟩, ⟨"ccccc","doc2"⟩]
        100 [0] = some [[0]] ∧
    "aaaaa".length + "bbbbb".length ≤ 100 := by
  exact ⟨by decide, by decide⟩

theorem neighborStep_len (ds : List Doc) (cs : ℕ) (seedSrc : String)
    (st : List ℤ × ℕ) (l : ℤ) :
    (neighborStep ds cs seedSrc st l).1.2 = st.2 ∨
      (neighborStep ds cs seedSrc st l).1.2 ≤ cs := by
  unfold neighborStep
  split
  · split
    · split
      · exact Or.inl rfl
      · split
        · rename_i hbudget _
          exact Or.inr (le_of_not_lt hbudget)
        · exact Or.inl rfl
    · exact Or.inl rfl
  · exact Or.inl rfl

theorem innerPair_len (ds : List Doc) (cs : ℕ) (seedSrc : String)
    (st : List ℤ × ℕ) (i k : ℤ) :
    (innerPair ds cs seedSrc st i k).1.2 = st.2 ∨
      (innerPair ds cs seedSrc st i k).1.2 ≤ cs := by
  simp only [innerPair]
  split
  · exact neighborStep_len ds cs seedSrc st (i + k)
  · rcases neighborStep_len ds cs seedSrc _ (i - k) with h | h
    · rw [h]
      exact neighborStep_len ds cs seedSrc st (i + k)
    · exact Or.inr h

theorem outerLoop_len (ds : List Doc) (cs : ℕ) (seedSrc : String) (i : ℤ)
    (ks : List ℤ) : ∀ st : List ℤ × ℕ,
    (outerLoop ds cs seedSrc i st ks).2 = st.2 ∨
      (outerLoop ds cs seedSrc i st ks).2 ≤ cs := by
  induction ks with
  | nil => intro st; exact Or.inl rfl
  | cons k ks ih =>
    intro st
    simp only [outerLoop]
    split
    · exact innerPair_len ds cs seedSrc st i k
    · rcases ih (innerPair ds cs seedSrc st i k).1 with h | h
      · rw [h]
        exact innerPair_len ds cs seedSrc st i k
      · exact Or.inr h

theorem foldl_append_length (chunks : List Doc) : ∀ acc : String,
    (chunks.foldl (fun acc c => acc ++ c.page_content) acc).length
      = acc.length + (chunks.map (fun c => c.page_content.length)).sum := by
  induction chunks with
  | nil => intro acc; simp
  | cons c cs ih =>
    intro acc
    simp only [List.foldl_cons, List.map_cons, List.sum_cons, ih,
      String.length_append]
    ring

/-- **C7** (amended) — Budget respect holds per seed, not per merged passage:
a single seed's cumulative `docs_len` after expansion either stayed at the
bare seed chunk's length (a chunk is never truncated, however large) or is
within the `chunk_size` budget; but a merged passage may combine the expanded
sets of several seeds into one consecutive run, and is then exactly the
concatenation of all the run's whole chunks — its length the sum of their
lengths — which may exceed the budget. -/
theorem dense_budget_per_seed (ds : List Doc) (cs : ℕ) (i : ℤ) (doc : Doc)
    (idSet : List ℤ) (run : List ℤ) (s : String)
    (hm : mergeRun ds run = some s) :
    ((expandSeedCore ds cs i doc idSet).2 = doc.page_content.length ∨
      (expandSeedCore ds cs i doc idSet).2 ≤ cs) ∧
    ∃ chunks,
      run.mapM (fun id => if id < 0 then none else ds.get? id.toNat)
        = some chunks ∧
      s.length = (chunks.map (fun c => c.page_content.length)).sum := by
  constructor
  · exact outerLoop_len ds cs doc.source i (kRange i) _
  · unfold mergeRun at hm
    rcases Option.bind_eq_some.mp hm with ⟨chunks, h1, h2⟩
    simp only [Option.pure_def, Option.some.injEq] at h2
    refine ⟨chunks, h1, ?_⟩
    rw [← h2, foldl_append_length]
    simp

/-- Witness for C7 (amended) at a concrete docstore: seed 2's expansion with
budget 5 keeps `docs_len ≤ 5`, and the merged run `[2,3]` is exactly the whole
chunks `"cc" ++ "dd"`. -/
theorem dense_budget_per_seed_witness :
    mergeRun [⟨"aa","s"⟩, ⟨"bb","s"⟩, ⟨"cc","s"⟩, ⟨"dd","s"⟩] [2, 3]
        = some "ccdd" ∧
    (((expandSeedCore [⟨"aa","s"⟩, ⟨"bb","s"⟩, ⟨"cc","s"⟩, ⟨"dd","s"⟩] 5 2
        ⟨"cc","s"⟩ [2]).2 = (Doc.page_content ⟨"cc","s"⟩).length ∨
      (expandSeedCore [⟨"aa","s"⟩, ⟨"bb","s"⟩, ⟨"cc","s"⟩, ⟨"dd","s"⟩] 5 2
        ⟨"cc","s"⟩ [2]).2 ≤ 5) ∧
    ∃ chunks,
      ([2, 3] : List ℤ).mapM (fun id => if id < 0 then none else
        ([⟨"aa","s"⟩, ⟨"bb","s"⟩, ⟨"cc","s"⟩, ⟨"dd","s"⟩] : List Doc).get?
          id.toNat) = some chunks ∧
      "ccdd".length = (chunks.map (fun c => c.page_content.length)).sum) :=
  ⟨by decide,
    dense_budget_per_seed [⟨"aa","s"⟩, ⟨"bb","s"⟩, ⟨"cc","s"⟩, ⟨"dd","s"⟩] 5 2
      ⟨"cc","s"⟩ [2] [2, 3] "ccdd" (by decide)⟩

/-- Counterexample to C7 as stated: two seed hits at adjacent positions 0 and
1 of the same source, each chunk of length 6, budget 10.  Their union is the
single run `[0,1]` and the merged passage `"aaaaaabbbbbb"` has length 12 > 10
although it is not a single seed chunk. -/
theorem dense_budget_counterexample :
    similarity_search_with_score_by_vector [⟨"aaaaaa","s"⟩, ⟨"bbbbbb","s"⟩]
        10 [0, 1] [1, 1] = some [("aaaaaabbbbbb", 1)] ∧
    ¬ ("aaaaaabbbbbb".length ≤ 10) ∧
    "aaaaaabbbbbb" ≠ "aaaaaa" ∧ "aaaaaabbbbbb" ≠ "bbbbbb" := by
  exact ⟨by decide, by decide, by decide, by decide⟩

/-- **C9** (amended) — Every passage returned by one call of the patched
dense search is paired with one and the same score `scores[0][j]`, where `j`
is the final enumeration index `len(indices[0]) - 1` of the first loop —
whether or not that last slot held a sentinel. -/
theorem dense_scores_all_equal (ds : List Doc) (cs : ℕ) (hits : List ℤ)
    (scores : List ℚ) (out : List (String × ℚ))
    (h : similarity_search_with_score_by_vector ds cs hits scores = some out) :
    ∀ p ∈ out, scores.get? (hits.length - 1) = some p.2 := by
  intro p hp
  unfold similarity_search_with_score_by_vector at h
  rcases Option.bind_eq_some.mp h with ⟨runs, hR, h2⟩
  rcases Option.bind_eq_some.mp h2 with ⟨score, hS, h3⟩
  rcases Option.bind_eq_some.mp h3 with ⟨passages, hP, h4⟩
  rw [Option.pure_def] at h4
  injection h4 with h4
  subst h4
  rcases List.mem_map.mp hp with ⟨s, _, rfl⟩
  exact hS

/-- Witness for C9 (amended): one hit, one score. -/
theorem dense_scores_all_equal_witness :
    similarity_search_with_score_by_vector [⟨"a","s"⟩] 10 [0] [7]
        = some [("a", 7)] ∧
    ([(7 : ℚ)] : List ℚ).get? (([0] : List ℤ).length - 1) = some (7 : ℚ) :=
  ⟨by decide,
    dense_scores_all_equal [⟨"a","s"⟩] 10 [0] [7] [("a", 7)] (by decide)
      ("a", 7) (by decide)⟩

/-- Counterexample to C9 as stated: hits `[0, -1]` with distances `[3, 99]`.
The last non-sentinel hit has enumeration index 0 and distance 3, but the
passage is paired with `scores[0][1] = 99`: `j` runs over sentinels too. -/
theorem dense_score_index_counterexample :
    similarity_search_with_score_by_vector [⟨"a","s"⟩] 10 [0, -1] [3, 99]
        = some [("a", 99)] ∧ (99 : ℚ) ≠ 3 := by
  exact ⟨by decide, by decide⟩

/-- **C10** — `seperate_list` fails (Python `IndexError` on `ls[0]`) on the
empty list instead of returning an empty partition; consequently the patched
dense search fails outright when the k-NN stage contributes no accepted
position; on any non-empty position list, `seperate_list` succeeds. -/
theorem seperate_list_empty_fails :
    seperate_list [] = none ∧
    (∀ (ds : List Doc) (cs : ℕ) (scores : List ℚ),
      similarity_search_with_score_by_vector ds cs [] scores = none) ∧
    (∀ ls : List ℤ, ls ≠ [] → ∃ runs, seperate_list ls = some runs) := by
  refine ⟨rfl, fun ds cs scores => rfl, fun ls h => ?_⟩
  cases ls with
  | nil => exact absurd rfl h
  | cons x rest => exact ⟨_, rfl⟩

/-- Witness for C10 on the singleton list `[5]`. -/
theorem seperate_list_empty_fails_witness :
    ([5] : List ℤ) ≠ [] ∧ ∃ runs, seperate_list [5] = some runs :=
  ⟨by decide, seperate_list_empty_fails.2.2 [5] (by decide)⟩

/-- **C4** — evaluation at the failing input: a query that tokenizes to the
two terms `工伤` and `保险`, both present in the single indexed document.
The claimed coverage formula gives `(2 / 2) * 100 = 100`, but the code's
`query_len` is `1` — the parsed query object is not a Python list — so the
returned score is `200`, outside `[0, 100]`. -/
theorem lexical_coverage_score_overflow :
    (match_hardcoding_scripts
        [⟨"sheet1", "1", "工伤保险内容", ["工伤", "保险"]⟩]
        ["工伤", "保险"]).map (fun h => h.score) = [200] ∧
    ¬ ((200 : ℚ) ≤ 100) ∧ ((2 : ℚ) / 2) * 100 = 100 := by
  refine ⟨?_, by norm_num, by norm_num⟩
  simp only [match_hardcoding_scripts, whooshSearchHC, queryMatches,
    ParsedQuery.isPythonList]
  norm_num

/-- **C5** — Dense score normalisation (spec-modelled, `dense_search` being
absent from the sources): `score = 25 * (4 - d)` maps every distance
`d ∈ [0, 4]` into `[0, 100]`, and smaller distances give strictly higher
scores. -/
theorem dense_search_score_range (d d' : ℚ) (h0 : 0 ≤ d) (h4 : d ≤ 4) :
    (0 ≤ dense_search_score d ∧ dense_search_score d ≤ 100) ∧
    (d < d' → dense_search_score d' < dense_search_score d) := by
  unfold dense_search_score
  exact ⟨⟨by linarith, by linarith⟩, fun h => by linarith⟩

/-- Witness for C5 at `d = 1`, `d' = 2`. -/
theorem dense_search_score_range_witness :
    ((0 : ℚ) ≤ 1 ∧ (1 : ℚ) ≤ 4) ∧
    ((0 ≤ dense_search_score 1 ∧ dense_search_score 1 ≤ 100) ∧
      ((1 : ℚ) < 2 → dense_search_score 2 < dense_search_score 1)) :=
  ⟨⟨by norm_num, by norm_num⟩,
    dense_search_score_range 1 2 (by norm_num) (by norm_num)⟩

/-- **C6** (amended) — The `chat` entry point first runs `LocalDocQA.search`
requesting `2 * top_k` hits; that method exposes no grouping parameter and
uses the query parser's default AND-grouping, so every returned hit matched
*all* query tokens.  The subsequent conversion of the hits reads the keys
`"raw_content"` and `"score"`, which the hit dicts lack, so `chat` fails
with `KeyError` exactly when the lexical result list is non-empty — before
the dense gate is ever evaluated.  Only with an empty lexical result list
does execution reach the gate, and then the dense retriever participates
exactly when the question has at least 5 characters; below the threshold
the output is independent of the dense results. -/
theorem chat_retrieval_structure (ix : List TIEntry)
    (queryTokens : List String) (question : String)
    (dense dense' : List SourceDoc) :
    (∀ h ∈ LocalDocQA.search ix queryTokens (VECTOR_SEARCH_TOP_K * 2),
      h.matched_terms = queryTokens) ∧
    (LocalDocQA.search ix queryTokens (VECTOR_SEARCH_TOP_K * 2)).length
      ≤ VECTOR_SEARCH_TOP_K * 2 ∧
    (chat ix queryTokens question dense = none ↔
      LocalDocQA.search ix queryTokens (VECTOR_SEARCH_TOP_K * 2) ≠ []) ∧
    (LocalDocQA.search ix queryTokens (VECTOR_SEARCH_TOP_K * 2) = [] →
      (question.length < 5 →
        chat ix queryTokens question dense
          = chat ix queryTokens question dense') ∧
      (5 ≤ question.length →
        chat ix queryTokens question dense
          = some (chatPost VECTOR_SEARCH_TOP_K (chatFuse [] dense)))) := by
  refine ⟨?_, ?_, ?_, ?_⟩
  · intro h hh
    simp only [LocalDocQA.search, List.mem_map] at hh
    obtain ⟨e, he, rfl⟩ := hh
    have he' : e ∈ (ix.filter
        (fun e => queryMatches ⟨GroupMode.AndGroup, queryTokens⟩ e.tokens)) :=
      List.take_subset _ _ he
    have hm := (List.mem_filter.mp he').2
    simp only [queryMatches, List.all_eq_true] at hm
    simp only []
    exact List.filter_eq_self.mpr fun t ht => hm t ht
  · simp only [LocalDocQA.search, whooshSearch, List.length_map]
    exact (List.length_take_le _ _)
  · rcases hs : LocalDocQA.search ix queryTokens (VECTOR_SEARCH_TOP_K * 2)
      with _ | ⟨h0, hits⟩
    · simp [chat, hs, hitsToSourceDocuments]
    · simp [chat, hs, hitsToSourceDocuments]
  · intro hs
    constructor
    · intro hlt
      simp [chat, hs, hitsToSourceDocuments, if_neg (not_le.mpr hlt)]
    · intro hge
      simp [chat, hs, hitsToSourceDocuments, if_pos hge]

/-- Witness for C6 (amended): an index with no matching entry gives an empty
lexical result list, and with a one-character question the chat output does
not depend on the dense result list at all. -/
theorem chat_retrieval_structure_witness :
    LocalDocQA.search [⟨"A", "A", "c1", ["t2"]⟩] ["t1"]
        (VECTOR_SEARCH_TOP_K * 2) = [] ∧
    ("q" : String).length < 5 ∧
    chat [⟨"A", "A", "c1", ["t2"]⟩] ["t1"] "q" [⟨"cd", "x", 80, "f", "Title"⟩]
      = chat [⟨"A", "A", "c1", ["t2"]⟩] ["t1"] "q" [] :=
  ⟨by decide, by decide,
    ((chat_retrieval_structure [⟨"A", "A", "c1", ["t2"]⟩] ["t1"] "q"
      [⟨"cd", "x", 80, "f", "Title"⟩] []).2.2.2 (by decide)).1 (by decide)⟩

/-- Counterexample to C6 as stated: an index with document `A` containing
both query terms and `B` containing only the first.  The lexical retrieval
`chat` actually performs returns only `A` (AND-grouping, the parser's
default; `LocalDocQA.search` has no grouping parameter), while OR-grouping —
which the claim asserts — would return both. -/
theorem chat_lexical_not_or_grouped :
    (LocalDocQA.search
        [⟨"A", "A", "c1", ["t1", "t2"]⟩, ⟨"B", "B", "c2", ["t1"]⟩]
        ["t1", "t2"] (VECTOR_SEARCH_TOP_K * 2)).map (fun h => h.docname)
      = ["A"] ∧
    (whooshSearch [⟨"A", "A", "c1", ["t1", "t2"]⟩, ⟨"B", "B", "c2", ["t1"]⟩]
        ⟨GroupMode.OrGroup, ["t1", "t2"]⟩ (VECTOR_SEARCH_TOP_K * 2)).map
        (fun e => e.title) = ["A", "B"] := by
  exact ⟨by decide, by decide⟩

/-- **C8** — evaluation of the actual `delete_docs`: after `os.remove` has
deleted the document's file, `remain_docs["code"]` subscripts the pydantic
`ListDocsResponse` returned by `list_docs` (the folder still exists) and
raises an uncaught `TypeError`.  Neither the rebuild branch nor
`shutil.rmtree` is ever reached: the knowledge-base folder and both — now
stale — indexes survive, and a subsequent search against the knowledge base
still succeeds instead of returning the claimed not-found error. -/
theorem delete_docs_type_error (kb : KBFolder) (doc_name : String)
    (hdoc : doc_name ∈ kb.docs) (hti : kb.has_text_index = true) :
    delete_docs (some kb) doc_name
      = (DeleteOutcome.typeError,
         some { kb with docs := kb.docs.erase doc_name }) ∧
    api_search (some { kb with docs := kb.docs.erase doc_name })
      = SearchOutcome.ok := by
  constructor
  · simp [delete_docs, hdoc, list_docs, ListDocsAnswer.getItemCode]
  · simp [api_search, hti]

/-- Witness for C8: knowledge base `{a, b}`, removing `a` — the request dies
with `TypeError`, `b` is left in a folder with stale indexes, and a search
still succeeds. -/
theorem delete_docs_type_error_witness :
    ("a" ∈ KBFolder.docs ⟨["a", "b"], true, true⟩ ∧
      KBFolder.has_text_index ⟨["a", "b"], true, true⟩ = true) ∧
    (delete_docs (some ⟨["a", "b"], true, true⟩) "a"
        = (DeleteOutcome.typeError, some ⟨["b"], true, true⟩) ∧
      api_search (some ⟨["b"], true, true⟩) = SearchOutcome.ok) :=
  ⟨⟨by decide, rfl⟩,
    delete_docs_type_error ⟨["a", "b"], true, true⟩ "a" (by decide) rfl⟩


theorem fuseUpd_raw (dense : List SourceDoc) (l : SourceDoc) :
    (fuseUpd dense l).raw_content = l.raw_content := by
  unfold fuseUpd
  split <;> rfl

theorem updateAt_indexOf (f : SourceDoc → SourceDoc) (r : String) :
    ∀ sds : List SourceDoc,
      (sds.map (fun d => d.raw_content)).Nodup →
      r ∈ sds.map (fun d => d.raw_content) →
      updateAt sds ((sds.map (fun d => d.raw_content)).indexOf r) f
        = sds.map (fun l => if l.raw_content = r then f l else l) := by
  intro sds
  induction sds with
  | nil => intro _ h; simp at h
  | cons x xs ih =>
    intro hnd hmem
    simp only [List.map_cons, List.nodup_cons] at hnd
    simp only [List.map_cons, List.indexOf_cons]
    by_cases hx : x.raw_content = r
    · have hb : (x.raw_content == r) = true := beq_iff_eq.mpr hx
      rw [hb]
      simp only [cond_true, updateAt, if_pos hx]
      have hxs : ∀ l ∈ xs, (if l.raw_content = r then f l else l) = l := by
        intro l hl
        refine if_neg fun hh => hnd.1 ?_
        rw [hx, ← hh]
        exact List.mem_map_of_mem _ hl
      rw [List.map_congr_left hxs]
      simp
    · have hb : (x.raw_content == r) = false := beq_eq_false_iff_ne.mpr hx
      rw [hb]
      simp only [cond_false, updateAt, if_neg hx]
      have hmem' : r ∈ xs.map (fun d => d.raw_content) := by
        rcases List.mem_cons.mp hmem with h | h
        · exact absurd h.symm hx
        · exact h
      rw [ih hnd.2 hmem']

theorem fuse_fold_char :
    ∀ dense sds extra : List SourceDoc,
      (sds.map (fun d => d.raw_content)).Nodup →
      (dense.map (fun d => d.raw_content)).Nodup →
      dense.foldl fuseStep (sds, extra)
        = (sds.map (fuseUpd dense),
           extra ++ dense.filter
             (fun d => decide
               (d.raw_content ∉ sds.map (fun x => x.raw_content)))) := by
  intro dense
  induction dense with
  | nil =>
    intro sds extra _ _
    simp only [List.foldl_nil, List.filter_nil, List.append_nil]
    rw [List.map_congr_left (fun l _ => by unfold fuseUpd; rw [List.find?_nil])]
    simp
  | cons d rest ih =>
    intro sds extra hnd hdense
    simp only [List.map_cons, List.nodup_cons, List.mem_map] at hdense
    obtain ⟨hd_notin, hrest⟩ := hdense
    rw [List.foldl_cons]
    by_cases hmem : d.raw_content ∈ sds.map (fun x => x.raw_content)
    · have hstep : fuseStep (sds, extra) d
          = (updateAt sds
              ((sds.map (fun x => x.raw_content)).indexOf d.raw_content)
              (fun x => { x with score := (1/2) * (d.score + x.score) }),
             extra) := by
        simp [fuseStep, hmem]
      rw [hstep,
        updateAt_indexOf (fun x => { x with score := (1/2) * (d.score + x.score) })
          d.raw_content sds hnd hmem]
      set cond := fun l : SourceDoc =>
        if l.raw_content = d.raw_content then
          { l with score := (1/2) * (d.score + l.score) } else l with hcond
      have hraw_cond : ∀ l : SourceDoc, (cond l).raw_content = l.raw_content := by
        intro l
        rw [hcond]
        by_cases h : l.raw_content = d.raw_content <;> simp [h]
      have hraws : (sds.map cond).map (fun x => x.raw_content)
          = sds.map (fun x => x.raw_content) := by
        rw [List.map_map]
        exact List.map_congr_left fun l _ => hraw_cond l
      have hnd' : ((sds.map cond).map (fun x => x.raw_content)).Nodup := by
        rw [hraws]; exact hnd
      rw [ih (sds.map cond) extra hnd' hrest]
      simp only [Prod.mk.injEq]
      refine ⟨?_, ?_⟩
      · rw [List.map_map]
        refine List.map_congr_left fun l _ => ?_
        by_cases hl : l.raw_content = d.raw_content
        · have hcl : cond l = { l with score := (1/2) * (d.score + l.score) } := by
            rw [hcond]; exact if_pos hl
          have hf2 : List.find?
              (fun x => x.raw_content == (cond l).raw_content) rest = none := by
            refine List.find?_eq_none.mpr fun x hx => ?_
            simp only [beq_iff_eq, hraw_cond]
            exact fun hxr => hd_notin ⟨x, hx, hxr.trans hl⟩
          have h2 : fuseUpd rest (cond l) = cond l := by
            unfold fuseUpd
            rw [hf2]
          have hf3 : List.find? (fun x => x.raw_content == l.raw_content)
              (d :: rest) = some d :=
            List.find?_cons_of_pos rest (by simp only [beq_iff_eq]; exact hl.symm)
          have h3 : fuseUpd (d :: rest) l
              = { l with score := (1/2) * (d.score + l.score) } := by
            unfold fuseUpd
            rw [hf3]
          rw [hcl] at h2
          simp only [Function.comp_apply, hcl, h2, h3]
        · have hcl : cond l = l := by rw [hcond]; exact if_neg hl
          have hf : List.find? (fun x => x.raw_content == l.raw_content)
              (d :: rest)
              = List.find? (fun x => x.raw_content == l.raw_content) rest :=
            List.find?_cons_of_neg rest
              (by simp only [beq_iff_eq]; exact fun hh => hl hh.symm)
          have h3 : fuseUpd (d :: rest) l = fuseUpd rest l := by
            unfold fuseUpd
            rw [hf]
          simp only [Function.comp_apply, hcl, h3]
      · rw [hraws, List.filter_cons]
        have hdec : ¬ (decide
            (d.raw_content ∉ sds.map (fun x => x.raw_content)) = true) := by
          simp [hmem]
        simp only [if_neg hdec]
    · have hstep : fuseStep (sds, extra) d = (sds, extra ++ [d]) := by
        simp [fuseStep, hmem]
      rw [hstep, ih sds (extra ++ [d]) hnd hrest]
      simp only [Prod.mk.injEq]
      refine ⟨?_, ?_⟩
      · refine List.map_congr_left fun l hl => ?_
        have hne : d.raw_content ≠ l.raw_content := fun hh =>
          hmem (hh ▸ List.mem_map_of_mem _ hl)
        have hf : List.find? (fun x => x.raw_content == l.raw_content)
            (d :: rest)
            = List.find? (fun x => x.raw_content == l.raw_content) rest :=
          List.find?_cons_of_neg rest (by simp only [beq_iff_eq]; exact hne)
        show fuseUpd rest l = fuseUpd (d :: rest) l
        unfold fuseUpd
        rw [hf]
      · rw [List.filter_cons]
        have hdec : decide
            (d.raw_content ∉ sds.map (fun x => x.raw_content)) = true := by
          simpa using hmem
        simp only [if_pos hdec, List.append_assoc, List.singleton_append]

theorem nodup_find?_eq (dense : List SourceDoc)
    (hnd : (dense.map (fun x => x.raw_content)).Nodup) (d : SourceDoc)
    (hd : d ∈ dense) :
    dense.find? (fun x => x.raw_content == d.raw_content) = some d := by
  induction dense with
  | nil => simp at hd
  | cons a rest ih =>
    simp only [List.map_cons, List.nodup_cons, List.mem_map] at hnd
    by_cases ha : a.raw_content = d.raw_content
    · have hf : List.find? (fun x => x.raw_content == d.raw_content)
          (a :: rest) = some a :=
        List.find?_cons_of_pos rest (by simp only [beq_iff_eq]; exact ha)
      rw [hf]
      rcases List.mem_cons.mp hd with rfl | hd'
      · rfl
      · exact absurd ⟨d, hd', ha.symm⟩ hnd.1
    · have hf : List.find? (fun x => x.raw_content == d.raw_content)
          (a :: rest)
          = List.find? (fun x => x.raw_content == d.raw_content) rest :=
        List.find?_cons_of_neg rest (by simp only [beq_iff_eq]; exact ha)
      rw [hf]
      rcases List.mem_cons.mp hd with rfl | hd'
      · exact absurd rfl ha
      · exact ih hnd.2 hd'

/-- **C3** — Result fusion: with pairwise-distinct `raw_content` on each
side, the fused list is exactly the lexical records — the one matching a
dense duplicate carrying the arithmetic mean `0.5 * (dense + lexical)` of the
two scores — followed by the unmatched dense results; a matched passage
occurs exactly once.  The post-processing sorts by score descending, keeps
only entries with score strictly above 50, and truncates to `top_k`. -/
theorem chat_fusion_correct (lexical dense : List SourceDoc)
    (hlex : (lexical.map (fun d => d.raw_content)).Nodup)
    (hdense : (dense.map (fun d => d.raw_content)).Nodup) :
    chatFuse lexical dense
      = lexical.map (fuseUpd dense)
        ++ dense.filter
          (fun d => decide
            (d.raw_content ∉ lexical.map (fun x => x.raw_content))) ∧
    (∀ d ∈ dense, ∀ l ∈ lexical, d.raw_content = l.raw_content →
      ((chatFuse lexical dense).countP
          (fun e => e.raw_content == d.raw_content) = 1 ∧
        ∀ e ∈ chatFuse lexical dense, e.raw_content = d.raw_content →
          e.score = (1/2) * (d.score + l.score))) ∧
    (∀ docs : List SourceDoc,
      (∀ e ∈ chatPost VECTOR_SEARCH_TOP_K docs, 50 < e.score) ∧
      (chatPost VECTOR_SEARCH_TOP_K docs).length ≤ VECTOR_SEARCH_TOP_K ∧
      List.Sorted (fun a b => b.score ≤ a.score)
        (chatPost VECTOR_SEARCH_TOP_K docs)) := by
  have hchar : chatFuse lexical dense
      = lexical.map (fuseUpd dense)
        ++ dense.filter
          (fun d => decide
            (d.raw_content ∉ lexical.map (fun x => x.raw_content))) := by
    unfold chatFuse
    rw [fuse_fold_char dense lexical [] hlex hdense]
    rfl
  refine ⟨hchar, ?_, ?_⟩
  · intro d hd l hl hdl
    constructor
    · rw [hchar, List.countP_append]
      have h1 : (lexical.map (fuseUpd dense)).countP
          (fun e => e.raw_content == d.raw_content)
          = lexical.countP (fun e => e.raw_content == d.raw_content) := by
        rw [List.countP_map]
        refine List.countP_congr fun e _ => ?_
        simp [Function.comp, fuseUpd_raw]
      have h2 : (dense.filter
          (fun x => decide
            (x.raw_content ∉ lexical.map (fun y => y.raw_content)))).countP
          (fun e => e.raw_content == d.raw_content) = 0 := by
        rw [List.countP_eq_zero]
        intro e he
        have hnot := (List.mem_filter.mp he).2
        simp only [decide_eq_true_eq] at hnot
        simp only [beq_iff_eq]
        intro hh
        exact hnot (by rw [hh, hdl]; exact List.mem_map_of_mem _ hl)
      have h3 : lexical.countP (fun e => e.raw_content == d.raw_content)
          = List.count d.raw_content
              (lexical.map (fun x => x.raw_content)) := by
        rw [List.count_eq_countP, List.countP_map]
        rfl
      rw [h1, h2, Nat.add_zero, h3, hdl]
      exact List.count_eq_one_of_mem hlex (List.mem_map_of_mem _ hl)
    · intro e he her
      rw [hchar] at he
      rcases List.mem_append.mp he with he | he
      · rcases List.mem_map.mp he with ⟨l', hl', rfl⟩
        have hraw : l'.raw_content = l.raw_content := by
          rw [← hdl, ← her, fuseUpd_raw]
        have hll : l' = l := List.inj_on_of_nodup_map hlex hl' hl hraw
        subst hll
        unfold fuseUpd
        rw [← hdl, nodup_find?_eq dense hdense d hd]
      · have hnot := (List.mem_filter.mp he).2
        simp only [decide_eq_true_eq] at hnot
        exact absurd (by rw [her, hdl]; exact List.mem_map_of_mem _ hl) hnot
  · intro docs
    refine ⟨?_, ?_, ?_⟩
    · intro e he
      have := (List.mem_filter.mp (List.mem_of_mem_take he)).2
      simpa using this
    · exact List.length_take_le _ _
    · haveI hTot : IsTotal SourceDoc (fun a b => b.score ≤ a.score) :=
        ⟨fun a b => le_total b.score a.score⟩
      haveI hTr : IsTrans SourceDoc (fun a b => b.score ≤ a.score) :=
        ⟨fun a b c hab hbc => le_trans hbc hab⟩
      unfold chatPost
      exact List.Pairwise.sublist (List.take_sublist _ _)
        (List.Pairwise.filter _ (List.sorted_insertionSort _ docs))


/-- Witness for C3 at the spec's Scenario C: lexical score 60, dense score 80
on the same `raw_content` fuse to a single entry of score 70. -/
theorem chat_fusion_correct_witness :
    chatFuse [⟨"cl", "x", 60, "f", "Title"⟩] [⟨"cd", "x", 80, "f", "Title"⟩]
      = [⟨"cl", "x", 70, "f", "Title"⟩] ∧
    SourceDoc.score ⟨"cl", "x", 70, "f", "Title"⟩ = (1/2) * (80 + 60) := by
  have h := chat_fusion_correct [⟨"cl", "x", 60, "f", "Title"⟩]
    [⟨"cd", "x", 80, "f", "Title"⟩] (by decide) (by decide)
  have hfuse : chatFuse [⟨"cl", "x", 60, "f", "Title"⟩]
      [⟨"cd", "x", 80, "f", "Title"⟩] = [⟨"cl", "x", 70, "f", "Title"⟩] := by
    norm_num [chatFuse, fuseStep, updateAt, List.indexOf_cons]
  refine ⟨hfuse, ?_⟩
  exact (h.2.1 ⟨"cd", "x", 80, "f", "Title"⟩ (by decide)
    ⟨"cl", "x", 60, "f", "Title"⟩ (by decide) rfl).2
    ⟨"cl", "x", 70, "f", "Title"⟩ (by rw [hfuse]; simp) rfl

end LangchainChatGLM
